import Mathlib

/-!
Shallow embedding of the skincare rules engine from `src/skincare.py`
(class `SkincareCompanion`): the ingredient interaction database, the
conflict analyzer (`analyze_skincare_routine`), the schedule builder
(`create_application_schedule`), the climate adjuster
(`adjust_for_climate`) and the climate data provider
(`get_climate_data`), together with theorems settling the spec claims.
-/

namespace Skincare

/-- Profile of a registered ingredient, mirroring one entry of
`self.ingredient_interactions`.  `climate_adjustments` is an association
list mirroring the Python dict (insertion order preserved). -/
structure IngredientProfile where
  conflicts : List String
  waiting_time : Nat
  frequency : String
  climate_adjustments : List (String × String)
deriving DecidableEq

/-- A skincare product as supplied by the caller. -/
structure Product where
  name : String
  ingredients : List String
  preferred_time : String
deriving DecidableEq

/-- A climate profile, mirroring the dicts used by `get_climate_data`. -/
structure ClimateProfile where
  humidity : Int
  uv_index : Int
  pollution_index : Int
deriving DecidableEq

/-- One conflict record as appended in `analyze_skincare_routine`. -/
structure ConflictRecord where
  product1 : String
  ingredient1 : String
  product2 : String
  ingredient2 : String
  waiting_time : Nat
deriving DecidableEq

/-- An ingredient table: the type of `self.ingredient_interactions`
viewed as a lookup (Python `name in dict` / `dict[name]`). -/
abbrev Table := String → Option IngredientProfile

/-- `dict.get(key)` on an association-list dict. -/
def dictGet (l : List (String × String)) (k : String) : Option String :=
  (l.find? (fun kv => kv.1 == k)).map Prod.snd

def retinolProfile : IngredientProfile :=
  { conflicts := ["glycolic acid", "salicylic acid", "vitamin c", "benzoyl peroxide"]
    waiting_time := 30
    frequency := "once daily"
    climate_adjustments :=
      [("high_humidity", "reduce concentration"),
       ("low_humidity", "add moisturizer after"),
       ("high_uv", "night only"),
       ("high_pollution", "follow with antioxidants")] }

def vitaminCProfile : IngredientProfile :=
  { conflicts := ["retinol", "glycolic acid", "niacinamide"]
    waiting_time := 15
    frequency := "once daily"
    climate_adjustments :=
      [("high_humidity", "lighter formulation"),
       ("low_humidity", "standard application"),
       ("high_uv", "morning application"),
       ("high_pollution", "increase frequency")] }

def niacinamideProfile : IngredientProfile :=
  { conflicts := ["vitamin c"]
    waiting_time := 10
    frequency := "twice daily"
    climate_adjustments :=
      [("high_humidity", "standard application"),
       ("low_humidity", "use with hyaluronic acid"),
       ("high_uv", "combine with sunscreen"),
       ("high_pollution", "standard application")] }

def hyaluronicProfile : IngredientProfile :=
  { conflicts := []
    waiting_time := 1
    frequency := "twice daily"
    climate_adjustments :=
      [("high_humidity", "standard application"),
       ("low_humidity", "apply to damp skin"),
       ("high_uv", "standard application"),
       ("high_pollution", "standard application")] }

def glycolicProfile : IngredientProfile :=
  { conflicts := ["retinol", "vitamin c", "salicylic acid"]
    waiting_time := 20
    frequency := "2-3 times weekly"
    climate_adjustments :=
      [("high_humidity", "standard application"),
       ("low_humidity", "reduce frequency"),
       ("high_uv", "night only"),
       ("high_pollution", "standard application")] }

def salicylicProfile : IngredientProfile :=
  { conflicts := ["retinol", "glycolic acid"]
    waiting_time := 20
    frequency := "2-3 times weekly"
    climate_adjustments :=
      [("high_humidity", "standard application"),
       ("low_humidity", "reduce frequency"),
       ("high_uv", "night only"),
       ("high_pollution", "standard application")] }

def benzoylProfile : IngredientProfile :=
  { conflicts := ["retinol", "vitamin c"]
    waiting_time := 20
    frequency := "once daily"
    climate_adjustments :=
      [("high_humidity", "standard application"),
       ("low_humidity", "follow with moisturizer"),
       ("high_uv", "night only"),
       ("high_pollution", "standard application")] }

def azelaicProfile : IngredientProfile :=
  { conflicts := []
    waiting_time := 10
    frequency := "twice daily"
    climate_adjustments :=
      [("high_humidity", "standard application"),
       ("low_humidity", "standard application"),
       ("high_uv", "standard application"),
       ("high_pollution", "standard application")] }

def peptidesProfile : IngredientProfile :=
  { conflicts := ["acids"]
    waiting_time := 10
    frequency := "twice daily"
    climate_adjustments :=
      [("high_humidity", "standard application"),
       ("low_humidity", "standard application"),
       ("high_uv", "standard application"),
       ("high_pollution", "standard application")] }

/-- The fixed ingredient database `self.ingredient_interactions`. -/
def ingredient_interactions : Table := fun name =>
  if name = "retinol" then some retinolProfile
  else if name = "vitamin c" then some vitaminCProfile
  else if name = "niacinamide" then some niacinamideProfile
  else if name = "hyaluronic acid" then some hyaluronicProfile
  else if name = "glycolic acid" then some glycolicProfile
  else if name = "salicylic acid" then some salicylicProfile
  else if name = "benzoyl peroxide" then some benzoylProfile
  else if name = "azelaic acid" then some azelaicProfile
  else if name = "peptides" then some peptidesProfile
  else none

/-- The fixed `self.climate_effects` table: for each climate tag, the
category/items pairs in dict insertion order. -/
def climate_effects : String → Option (List (String × List String)) := fun tag =>
  if tag = "high_humidity" then
    some [("recommended", ["lightweight moisturizer", "oil-free", "mattifying"]),
          ("avoid", ["heavy oils", "thick creams", "oil-based products"]),
          ("increase", ["exfoliation"]),
          ("decrease", ["heavy hydration"])]
  else if tag = "low_humidity" then
    some [("recommended", ["rich moisturizer", "facial oils", "hydrating masks"]),
          ("avoid", ["harsh cleansers", "alcohol-based products"]),
          ("increase", ["hydration layers"]),
          ("decrease", ["exfoliation frequency"])]
  else if tag = "high_uv" then
    some [("recommended", ["sunscreen", "antioxidants", "vitamin C"]),
          ("avoid", ["photosensitizing ingredients during day"]),
          ("increase", ["sun protection"]),
          ("decrease", ["exfoliation"])]
  else if tag = "high_pollution" then
    some [("recommended", ["double cleansing", "antioxidants", "barrier repair"]),
          ("avoid", ["skip cleansing"]),
          ("increase", ["antioxidant protection"]),
          ("decrease", [])]
  else none

/-! ### Conflict analyzer -/

/-- Inner loops of the conflict search for one ingredient of `p1`:
the `if ingredient1 in self.ingredient_interactions` guard followed by
the scan over every other product's ingredients. -/
def conflictsForIngredient (table : Table) (products : List Product)
    (p1 : Product) (i1 : String) : List ConflictRecord :=
  match table i1 with
  | none => []
  | some prof =>
      products.flatMap (fun p2 =>
        if p1 = p2 then []
        else
          p2.ingredients.filterMap (fun i2 =>
            if i2 ∈ prof.conflicts then
              some ⟨p1.name, i1, p2.name, i2, prof.waiting_time⟩
            else none))

/-- The `conflicts` list built by `analyze_skincare_routine`. -/
def routineConflicts (table : Table) (products : List Product) : List ConflictRecord :=
  products.flatMap (fun p1 =>
    p1.ingredients.flatMap (fun i1 => conflictsForIngredient table products p1 i1))

/-- Attributes of one edge of the `networkx` graph.  A `contains` edge
carries no waiting time; a `conflict` edge carries `some` waiting time. -/
structure EdgeAttr where
  etype : String
  waiting_time : Option Nat
deriving DecidableEq

/-- The interaction graph: node list (name, optional `type` attribute)
and edge list, both in insertion order.  Edges are keyed by unordered
endpoint pairs, as in `networkx.Graph`. -/
structure Graph where
  nodes : List (String × Option String)
  edges : List (String × String × EdgeAttr)
deriving DecidableEq

def nodeNames (g : Graph) : List String := g.nodes.map Prod.fst

/-- `G.add_node(n, type=t)`: insert, or overwrite the attribute in place. -/
def addNode (g : Graph) (n : String) (t : String) : Graph :=
  if n ∈ nodeNames g then
    { g with nodes := g.nodes.map (fun e => if e.1 = n then (n, some t) else e) }
  else
    { g with nodes := g.nodes ++ [(n, some t)] }

/-- Whether an edge entry has unordered key `{u, v}`. -/
def edgeMatches (u v : String) (e : String × String × EdgeAttr) : Bool :=
  (e.1 == u && e.2.1 == v) || (e.1 == v && e.2.1 == u)

/-- Insertion of an attribute-less node when the name is absent, as
`networkx.add_edge` does for missing endpoints. -/
def insertNodeIfAbsent (ns : List (String × Option String)) (n : String) :
    List (String × Option String) :=
  if n ∈ ns.map Prod.fst then ns else ns ++ [(n, none)]

/-- `G.add_edge(u, v, **attrs)`: missing endpoints are inserted as
attribute-less nodes; an existing edge with the same unordered key has
its attributes updated by `f`, otherwise a fresh edge `init` is added. -/
def addEdge (g : Graph) (u v : String) (f : EdgeAttr → EdgeAttr) (init : EdgeAttr) : Graph :=
  let ns := insertNodeIfAbsent (insertNodeIfAbsent g.nodes u) v
  if g.edges.any (edgeMatches u v) then
    { nodes := ns,
      edges := g.edges.map (fun e => if edgeMatches u v e then (e.1, e.2.1, f e.2.2) else e) }
  else
    { nodes := ns, edges := g.edges ++ [(u, v, init)] }

def addContainsEdge (g : Graph) (u v : String) : Graph :=
  addEdge g u v (fun a => { a with etype := "contains" }) ⟨"contains", none⟩

def addConflictEdge (g : Graph) (u v : String) (w : Nat) : Graph :=
  addEdge g u v (fun _ => ⟨"conflict", some w⟩) ⟨"conflict", some w⟩

/-- Processing one product in the graph-building loop: add its product
node, then for each ingredient add the ingredient node when absent and
the `contains` edge. -/
def addProductToGraph (g : Graph) (p : Product) : Graph :=
  p.ingredients.foldl
    (fun g i => addContainsEdge (if i ∈ nodeNames g then g else addNode g i "ingredient") p.name i)
    (addNode g p.name "product")

/-- The graph built by `analyze_skincare_routine` from the product list
and its conflict records. -/
def buildGraph (products : List Product) (conflicts : List ConflictRecord) : Graph :=
  conflicts.foldl (fun g c =>
      if c.ingredient1 ∈ nodeNames g ∧ c.ingredient2 ∈ nodeNames g then
        addConflictEdge g c.ingredient1 c.ingredient2 c.waiting_time
      else g)
    (products.foldl addProductToGraph ⟨[], []⟩)

structure AnalysisResult where
  conflicts : List ConflictRecord
  graph : Graph
deriving DecidableEq

/-- `analyze_skincare_routine(products)`. -/
def analyze_skincare_routine (table : Table) (products : List Product) : AnalysisResult :=
  let conflicts := routineConflicts table products
  { conflicts := conflicts, graph := buildGraph products conflicts }

/-! ### Schedule builder -/

/-- The two slot lists of one schedule day. -/
structure Slots where
  morning : List String
  evening : List String
deriving DecidableEq

/-- The schedule dict: association list from day number to slots,
keys in insertion order. -/
abbrev Schedule := List (Nat × Slots)

/-- `{i: {"morning": [], "evening": []} for i in range(1, days+1)}`. -/
def initSchedule (days : Nat) : Schedule :=
  (List.range' 1 days).map (fun d => (d, ⟨[], []⟩))

/-- `schedule[day][slot].append(name)` (a no-op on an absent key, which
the source never exercises). -/
def appendSlot (sched : Schedule) (day : Nat) (slot : String) (name : String) : Schedule :=
  sched.map (fun e =>
    if e.1 = day then
      (e.1, if slot = "morning" then ⟨e.2.morning ++ [name], e.2.evening⟩
            else ⟨e.2.morning, e.2.evening ++ [name]⟩)
    else e)

/-- Ingredients of `p` registered in the table, in product order. -/
def activeIngredients (table : Table) (p : Product) : List String :=
  p.ingredients.filter (fun i => (table i).isSome)

/-- Placement of a product with no active ingredients: every day, in the
slots allowed by its `preferred_time`. -/
def placeNoActive (sched : Schedule) (days : Nat) (p : Product) : Schedule :=
  (List.range' 1 days).foldl (fun s day =>
    let s1 := if p.preferred_time = "morning" ∨ p.preferred_time = "both"
              then appendSlot s day "morning" p.name else s
    if p.preferred_time = "evening" ∨ p.preferred_time = "both"
    then appendSlot s1 day "evening" p.name else s1) sched

/-- Whether `needle` occurs as a contiguous run inside `hay`. -/
def substrAt (needle : List Char) : List Char → Bool
  | [] => needle.isPrefixOf []
  | c :: t => needle.isPrefixOf (c :: t) || substrAt needle t

/-- Python `"weekly" in freq` (substring test). -/
def hasWeekly (freq : String) : Bool := substrAt "weekly".data freq.data

/-- Decimal value of a digit run, as Python `int` computes it. -/
def digitsToNat (ds : List Char) : Nat :=
  ds.foldl (fun n c => n * 10 + (c.toNat - 48)) 0

/-- `int(freq.split()[0].split("-")[0])`: the first whitespace-separated
token's run before the first hyphen, read as a decimal number; `none`
for the raising cases (no token, or non-digit text). -/
def parseTimes (freq : String) : Option Nat :=
  match (freq.data.dropWhile (fun c => c = ' ')).takeWhile (fun c => c ≠ ' ') with
  | [] => none
  | tok =>
    match tok.takeWhile (fun c => c ≠ '-') with
    | [] => none
    | ds => if ds.all Char.isDigit then some (digitsToNat ds) else none

/-- The slot used by the once-daily and weekly branches. -/
def slotFor (primary : String) : String :=
  if primary = "retinol" ∨ primary = "glycolic acid" then "evening" else "morning"

/-- The day list `range(1, days+1, interval)`. -/
def weeklyDays (days interval : Nat) : List Nat :=
  List.range' 1 ((days + interval - 1) / interval) interval

/-- Scheduling of one product, mirroring the body of the product loop in
`create_application_schedule`.  `none` marks the paths on which the
Python code raises (frequency text that does not parse to a positive
count, or an impossible missing lookup). -/
def scheduleProduct (table : Table) (days : Nat) (sched : Schedule) (p : Product) :
    Option Schedule :=
  match activeIngredients table p with
  | [] => some (placeNoActive sched days p)
  | primary :: _ =>
    match table primary with
    | none => none
    | some prof =>
      if prof.frequency = "twice daily" then
        some ((List.range' 1 days).foldl
          (fun s day => appendSlot (appendSlot s day "morning" p.name) day "evening" p.name) sched)
      else if prof.frequency = "once daily" then
        some ((List.range' 1 days).foldl
          (fun s day => appendSlot s day (slotFor primary) p.name) sched)
      else if hasWeekly prof.frequency then
        match parseTimes prof.frequency with
        | none => none
        | some times =>
          if times = 0 then none
          else
            some ((weeklyDays days (max 1 (days / times))).foldl
              (fun s day => appendSlot s day (slotFor primary) p.name) sched)
      else some sched

/-- `create_application_schedule(products, days)`. -/
def create_application_schedule (table : Table) (products : List Product) (days : Nat) :
    Option Schedule :=
  products.foldlM (scheduleProduct table days) (initSchedule days)

/-! ### Climate adjuster -/

/-- The `climate_changes` classification in `adjust_for_climate`. -/
def climateChanges (home dest : ClimateProfile) : List String :=
  (if dest.humidity - home.humidity > 20 then ["high_humidity"]
   else if home.humidity - dest.humidity > 20 then ["low_humidity"]
   else [])
  ++ (if dest.uv_index - home.uv_index > 2 then ["high_uv"] else [])
  ++ (if dest.pollution_index - home.pollution_index > 20 then ["high_pollution"] else [])

/-- One adjustment recommendation.  Ingredient-specific records have
`product`/`ingredient` set and no `adjustment_type`; general records
have `adjustment_type` set and no product/ingredient. -/
structure AdjustmentRecord where
  product : Option String
  ingredient : Option String
  climate_factor : String
  adjustment_type : Option String
  adjustment : String
deriving DecidableEq

structure AdjustResult where
  climate_changes : List String
  adjusted_routine : List Product
  adjustments : List AdjustmentRecord
deriving DecidableEq

/-- The ingredient-specific adjustments of one product. -/
def productAdjustments (table : Table) (changes : List String) (p : Product) :
    List AdjustmentRecord :=
  (activeIngredients table p).flatMap (fun ing =>
    changes.filterMap (fun cc =>
      match table ing with
      | none => none
      | some prof =>
        match dictGet prof.climate_adjustments cc with
        | none => none
        | some adj =>
          if adj = "" then none
          else some ⟨some p.name, some ing, cc, none, adj⟩))

/-- The general recommendations for one fired climate tag. -/
def generalAdjustments (cc : String) : List AdjustmentRecord :=
  match climate_effects cc with
  | none => []
  | some cats =>
    cats.flatMap (fun kv =>
      if kv.1 = "recommended" ∨ kv.1 = "avoid" then
        kv.2.map (fun item => ⟨none, none, cc, some kv.1, item⟩)
      else [])

/-- `adjust_for_climate(routine, home_climate, destination_climate)`. -/
def adjust_for_climate (table : Table) (routine : List Product)
    (home dest : ClimateProfile) : AdjustResult :=
  let changes := climateChanges home dest
  { climate_changes := changes
    adjusted_routine := routine
    adjustments :=
      routine.flatMap (productAdjustments table changes)
      ++ changes.flatMap generalAdjustments }

/-! ### Climate data provider -/

def default_climate : ClimateProfile := ⟨50, 5, 40⟩

/-- The fixed location names of the `climate_data` table. -/
def climateLocations : List String :=
  ["New York", "Los Angeles", "Miami", "Denver", "Seattle", "Phoenix",
   "Chicago", "Honolulu", "Tokyo", "London", "Dubai", "Sydney"]

/-- `get_climate_data(location)`. -/
def get_climate_data (location : String) : ClimateProfile :=
  if location = "New York" then ⟨60, 5, 40⟩
  else if location = "Los Angeles" then ⟨50, 8, 60⟩
  else if location = "Miami" then ⟨80, 9, 30⟩
  else if location = "Denver" then ⟨25, 7, 20⟩
  else if location = "Seattle" then ⟨70, 4, 25⟩
  else if location = "Phoenix" then ⟨20, 10, 45⟩
  else if location = "Chicago" then ⟨55, 5, 50⟩
  else if location = "Honolulu" then ⟨75, 10, 15⟩
  else if location = "Tokyo" then ⟨65, 6, 70⟩
  else if location = "London" then ⟨75, 3, 45⟩
  else if location = "Dubai" then ⟨60, 11, 65⟩
  else if location = "Sydney" then ⟨60, 9, 25⟩
  else default_climate

/-! ### Auxiliary definitions used by the claims -/

/-- Removal of the entries already in `seen`, and of later duplicates,
keeping each name's first occurrence. -/
def dedupFirstAux (seen : List String) : List String → List String
  | [] => []
  | a :: l => if a ∈ seen then dedupFirstAux seen l else a :: dedupFirstAux (a :: seen) l

/-- Removal of duplicate entries keeping the first occurrence. -/
def dedupFirst (l : List String) : List String := dedupFirstAux [] l

/-- A product with duplicate ingredient occurrences removed. -/
def dedupProduct (p : Product) : Product :=
  { p with ingredients := dedupFirst p.ingredients }

/-- Appending `n` copies of a name to one slot of a day entry; the
cumulative effect of the schedule loops on a single day. -/
def addTimes (n : Nat) (slot name : String) (s : Slots) : Slots :=
  if slot = "morning" then ⟨s.morning ++ List.replicate n name, s.evening⟩
  else ⟨s.morning, s.evening ++ List.replicate n name⟩

/-- The fixed table with conflict sets and wait times stripped, used to
exhibit that scheduling does not read those fields. -/
def strippedTable : Table := fun n =>
  (ingredient_interactions n).map (fun q => { q with conflicts := [], waiting_time := 0 })

/-- All ingredient occurrences referenced by a product list. -/
def allIngredients (l : List Product) : List String :=
  l.flatMap Product.ingredients

/-- Node-side invariant of the interaction graph: one node per name,
product nodes exactly for `pns`, ingredient nodes exactly for `ins`. -/
def NodesSpec (ns : List (String × Option String)) (pns ins : List String) : Prop :=
  (ns.map Prod.fst).Nodup ∧
  ∀ n t, (n, t) ∈ ns ↔
    (t = some "product" ∧ n ∈ pns) ∨ (t = some "ingredient" ∧ n ∈ ins)

/-- The (product name, ingredient) pairs that must carry a `contains`
edge for a processed product list. -/
def containsPairs (l : List Product) : List (String × String) :=
  l.flatMap (fun q => q.ingredients.map (fun i => (q.name, i)))

/-- Edge-side invariant during the `contains` phase of graph building:
every edge is a `contains` edge stored as one of the allowed
(product, ingredient) pairs `P`, every allowed pair has its edge, and no
two edges share an unordered key. -/
def EdgesSpec (es : List (String × String × EdgeAttr)) (P : List (String × String)) : Prop :=
  (∀ e ∈ es, e.2.2 = ⟨"contains", none⟩ ∧ (e.1, e.2.1) ∈ P) ∧
  (∀ pr ∈ P, ∃ e ∈ es, e.1 = pr.1 ∧ e.2.1 = pr.2 ∧ e.2.2 = ⟨"contains", none⟩) ∧
  List.Pairwise (fun e1 e2 => edgeMatches e1.1 e1.2.1 e2 = false) es

/-- Edge-side invariant during the conflict phase: the original
`contains` edges survive untouched, the added edges are conflict edges
of processed records, every processed record has its edge, and keys
stay pairwise distinct. -/
def ConflictSpec (es E0 : List (String × String × EdgeAttr))
    (ins : List String) (done : List ConflictRecord) : Prop :=
  (∃ extra, es = E0 ++ extra ∧
    ∀ e ∈ extra, e.2.2.etype = "conflict" ∧ e.1 ∈ ins ∧ e.2.1 ∈ ins ∧
      ∃ c ∈ done, edgeMatches c.ingredient1 c.ingredient2 e = true) ∧
  (∀ c ∈ done, ∃ e ∈ es, e.2.2.etype = "conflict" ∧
    edgeMatches c.ingredient1 c.ingredient2 e = true) ∧
  List.Pairwise (fun e1 e2 => edgeMatches e1.1 e1.2.1 e2 = false) es

/-! ## Helper lemmas -/

lemma mem_ite_nil {α : Type} {c : Prop} [Decidable c] {l : List α} {x : α} :
    x ∈ (if c then ([] : List α) else l) ↔ ¬c ∧ x ∈ l := by
  split <;> simp [*]

lemma mem_conflictsForIngredient {table : Table} {products : List Product}
    {p1 : Product} {i1 : String} {r : ConflictRecord} :
    r ∈ conflictsForIngredient table products p1 i1 ↔
      ∃ prof, table i1 = some prof ∧
        ∃ p2 ∈ products, p1 ≠ p2 ∧ ∃ i2 ∈ p2.ingredients, i2 ∈ prof.conflicts ∧
          r = ⟨p1.name, i1, p2.name, i2, prof.waiting_time⟩ := by
  unfold conflictsForIngredient
  cases h : table i1 with
  | none => simp [h]
  | some prof =>
    simp only [h, Option.some.injEq, List.mem_flatMap, List.mem_filterMap, mem_ite_nil]
    constructor
    · rintro ⟨p2, hp2, hne, i2, hi2, hr⟩
      rw [Option.ite_none_right_eq_some, Option.some.injEq] at hr
      exact ⟨prof, rfl, p2, hp2, hne, i2, hi2, hr.1, hr.2.symm⟩
    · rintro ⟨prof', hprof', p2, hp2, hne, i2, hi2, hc, rfl⟩
      subst hprof'
      exact ⟨p2, hp2, hne, i2, hi2, by simp [hc]⟩

lemma mem_routineConflicts {table : Table} {products : List Product} {r : ConflictRecord} :
    r ∈ routineConflicts table products ↔
      ∃ p1 ∈ products, ∃ p2 ∈ products, p1 ≠ p2 ∧
        ∃ i1 ∈ p1.ingredients, ∃ prof, table i1 = some prof ∧
          ∃ i2 ∈ p2.ingredients, i2 ∈ prof.conflicts ∧
            r = ⟨p1.name, i1, p2.name, i2, prof.waiting_time⟩ := by
  unfold routineConflicts
  simp only [List.mem_flatMap, mem_conflictsForIngredient]
  constructor
  · rintro ⟨p1, hp1, i1, hi1, prof, hprof, p2, hp2, hne, i2, hi2, hc, rfl⟩
    exact ⟨p1, hp1, p2, hp2, hne, i1, hi1, prof, hprof, i2, hi2, hc, rfl⟩
  · rintro ⟨p1, hp1, p2, hp2, hne, i1, hi1, prof, hprof, i2, hi2, hc, rfl⟩
    exact ⟨p1, hp1, i1, hi1, prof, hprof, p2, hp2, hne, i2, hi2, hc, rfl⟩

lemma addTimes_zero (slot name : String) (s : Slots) : addTimes 0 slot name s = s := by
  unfold addTimes; split <;> simp

lemma addTimes_addTimes (m n : Nat) (slot name : String) (s : Slots) :
    addTimes m slot name (addTimes n slot name s) = addTimes (n + m) slot name s := by
  obtain ⟨sm, se⟩ := s
  unfold addTimes
  split <;> (dsimp only; rw [List.replicate_add, ← List.append_assoc])

lemma foldl_appendSlot (dl : List Nat) (slot name : String) (sched : Schedule) :
    dl.foldl (fun s d => appendSlot s d slot name) sched
      = sched.map (fun e => (e.1, addTimes (dl.count e.1) slot name e.2)) := by
  induction dl generalizing sched with
  | nil =>
    simp only [List.foldl_nil, List.count_nil, addTimes_zero]
    exact (List.map_id sched).symm
  | cons a dl ih =>
    rw [List.foldl_cons, ih]
    unfold appendSlot
    rw [List.map_map]
    apply List.map_congr_left
    intro e _
    have hX : (if slot = "morning" then (⟨e.2.morning ++ [name], e.2.evening⟩ : Slots)
               else ⟨e.2.morning, e.2.evening ++ [name]⟩) = addTimes 1 slot name e.2 := by
      unfold addTimes; split <;> rfl
    by_cases h : e.1 = a
    · simp only [Function.comp_apply, if_pos h, hX, addTimes_addTimes]
      rw [List.count_cons]
      simp [h, Nat.add_comm]
    · simp only [Function.comp_apply, if_neg h]
      rw [List.count_cons]
      have : (a == e.1) = false := by simpa using fun hc => h hc.symm
      simp [this]

lemma map_fst_foldl {f : Schedule → Nat → Schedule}
    (hf : ∀ s d, (f s d).map Prod.fst = s.map Prod.fst) (dl : List Nat) :
    ∀ sched : Schedule, (dl.foldl f sched).map Prod.fst = sched.map Prod.fst := by
  induction dl with
  | nil => intro sched; rfl
  | cons a dl ih => intro sched; rw [List.foldl_cons, ih, hf]

lemma map_fst_appendSlot (sched : Schedule) (day : Nat) (slot name : String) :
    (appendSlot sched day slot name).map Prod.fst = sched.map Prod.fst := by
  unfold appendSlot
  rw [List.map_map]
  apply List.map_congr_left
  intro e _
  by_cases h : e.1 = day <;> simp [h]

lemma map_fst_placeNoActive (sched : Schedule) (days : Nat) (p : Product) :
    (placeNoActive sched days p).map Prod.fst = sched.map Prod.fst := by
  unfold placeNoActive
  apply map_fst_foldl
  intro s d
  by_cases h1 : p.preferred_time = "morning" ∨ p.preferred_time = "both" <;>
    by_cases h2 : p.preferred_time = "evening" ∨ p.preferred_time = "both" <;>
      simp [h1, h2, map_fst_appendSlot]

lemma schedule_single (table : Table) (p : Product) (days : Nat) :
    create_application_schedule table [p] days
      = scheduleProduct table days (initSchedule days) p := by
  unfold create_application_schedule
  cases h : scheduleProduct table days (initSchedule days) p <;>
    simp [List.foldlM, h]

lemma count_weeklyDays {days I d : Nat} (hI : 0 < I) (hd : d ∈ List.range' 1 days) :
    (weeklyDays days I).count d = if (d - 1) % I = 0 then 1 else 0 := by
  obtain ⟨j, hj, rfl⟩ := List.mem_range'.mp hd
  have hmem : (1 + 1 * j ∈ weeklyDays days I) ↔ (j % I = 0) := by
    unfold weeklyDays
    rw [List.mem_range']
    constructor
    · rintro ⟨k, hk, heq⟩
      have hjk : j = I * k := by omega
      simp [hjk, Nat.mul_mod_right]
    · intro hmod
      refine ⟨j / I, ?_, ?_⟩
      · have hjd : j ≤ days - 1 := by omega
        have hdd : j / I ≤ (days - 1) / I := Nat.div_le_div_right hjd
        have hstep : days + I - 1 = (days - 1) + I := by omega
        have hcnt : (days + I - 1) / I = (days - 1) / I + 1 := by
          rw [hstep, Nat.add_div_right _ hI]
        omega
      · have hdvd := Nat.div_mul_cancel (Nat.dvd_of_mod_eq_zero hmod)
        have hdvd2 : I * (j / I) = j := by rw [Nat.mul_comm]; exact hdvd
        omega
  have hnd : (weeklyDays days I).Nodup := List.nodup_range' _ _ _ hI
  have hsub : 1 + 1 * j - 1 = j := by omega
  by_cases hm : j % I = 0
  · rw [if_pos (by rw [hsub]; exact hm)]
    exact List.count_eq_one_of_mem hnd (hmem.mpr hm)
  · rw [if_neg (by rw [hsub]; exact hm)]
    exact List.count_eq_zero_of_not_mem (fun hc => hm (hmem.mp hc))

lemma fixed_frequency (n : String) (prof : IngredientProfile)
    (h : ingredient_interactions n = some prof) :
    prof.frequency = "once daily" ∨ prof.frequency = "twice daily" ∨
      prof.frequency = "2-3 times weekly" := by
  unfold ingredient_interactions at h
  split_ifs at h <;> (injection h with h2; subst h2; decide)

lemma scheduleProduct_fixed_total (days : Nat) (p : Product) (sched : Schedule) :
    ∃ s, scheduleProduct ingredient_interactions days sched p = some s ∧
      s.map Prod.fst = sched.map Prod.fst := by
  cases hA : activeIngredients ingredient_interactions p with
  | nil =>
    refine ⟨placeNoActive sched days p, ?_, map_fst_placeNoActive sched days p⟩
    simp [scheduleProduct, hA]
  | cons gov rest =>
    have hgovmem : gov ∈ activeIngredients ingredient_interactions p := by
      rw [hA]; exact List.mem_cons_self _ _
    have hsome : (ingredient_interactions gov).isSome :=
      (List.mem_filter.mp hgovmem).2
    obtain ⟨prof, hprof⟩ := Option.isSome_iff_exists.mp hsome
    rcases fixed_frequency gov prof hprof with h | h | h
    · have hv : scheduleProduct ingredient_interactions days sched p
          = some ((List.range' 1 days).foldl
              (fun s day => appendSlot s day (slotFor gov) p.name) sched) := by
        simp [scheduleProduct, hA, hprof, h]
      exact ⟨_, hv, map_fst_foldl (fun s d => map_fst_appendSlot s d _ _) _ sched⟩
    · have hv : scheduleProduct ingredient_interactions days sched p
          = some ((List.range' 1 days).foldl
              (fun s day => appendSlot (appendSlot s day "morning" p.name) day "evening" p.name)
              sched) := by
        simp [scheduleProduct, hA, hprof, h]
      refine ⟨_, hv, map_fst_foldl (fun s d => ?_) _ sched⟩
      rw [map_fst_appendSlot, map_fst_appendSlot]
    · have hw : hasWeekly "2-3 times weekly" = true := by decide
      have hp : parseTimes "2-3 times weekly" = some 2 := by decide
      have hv : scheduleProduct ingredient_interactions days sched p
          = some ((weeklyDays days (max 1 (days / 2))).foldl
              (fun s day => appendSlot s day (slotFor gov) p.name) sched) := by
        simp [scheduleProduct, hA, hprof, h, hw, hp]
      exact ⟨_, hv, map_fst_foldl (fun s d => map_fst_appendSlot s d _ _) _ sched⟩

lemma head?_filter_dedupFirstAux (q : String → Bool) :
    ∀ (l seen : List String), (∀ x ∈ seen, q x = false) →
      ((dedupFirstAux seen l).filter q).head? = (l.filter q).head? := by
  intro l
  induction l with
  | nil => intro seen _; rfl
  | cons a l ih =>
    intro seen hseen
    unfold dedupFirstAux
    by_cases hm : a ∈ seen
    · rw [if_pos hm]
      have hqa : q a = false := hseen a hm
      rw [ih seen hseen, List.filter_cons, hqa]
      simp
    · rw [if_neg hm]
      by_cases hqa : q a = true
      · simp [List.filter_cons, hqa]
      · have hqa' : q a = false := by revert hqa; cases q a <;> simp
        have hseen' : ∀ x ∈ a :: seen, q x = false := by
          intro x hx
          rcases List.mem_cons.mp hx with rfl | hx
          · exact hqa'
          · exact hseen x hx
        rw [List.filter_cons, hqa', List.filter_cons, hqa']
        exact ih (a :: seen) hseen'

lemma scheduleProduct_dedup (table : Table) (days : Nat) (sched : Schedule) (p : Product) :
    scheduleProduct table days sched (dedupProduct p) = scheduleProduct table days sched p := by
  have hq : (activeIngredients table (dedupProduct p)).head?
      = (activeIngredients table p).head? :=
    head?_filter_dedupFirstAux (fun i => (table i).isSome) p.ingredients [] (by simp)
  cases hA : activeIngredients table p with
  | nil =>
    have hA' : activeIngredients table (dedupProduct p) = [] := by
      rw [hA] at hq
      exact List.head?_eq_none_iff.mp hq
    simp only [scheduleProduct, hA, hA']
    rfl
  | cons gov rest =>
    rw [hA] at hq
    cases hA' : activeIngredients table (dedupProduct p) with
    | nil => rw [hA'] at hq; simp at hq
    | cons gov' rest' =>
      rw [hA'] at hq
      obtain rfl : gov' = gov := by simpa using hq
      simp only [scheduleProduct, hA, hA']
      rfl

/-! ## Claim theorems -/

/-- C1: `analyze` returns exactly the conflict records arising from an
ordered pair of value-distinct products, a registered ingredient of the
first, and an ingredient of the second lying in the first ingredient's
conflict set, with the first ingredient's wait time; in particular, if
ingredient X lists Y as a conflict, product A contains X and product
B ≠ A contains Y, then `analyze([A,B])` contains a record whose waiting
time is X's registered wait time. -/
theorem claim1_analyze_conflicts_exact (table : Table) :
    (∀ (products : List Product) (r : ConflictRecord),
      r ∈ (analyze_skincare_routine table products).conflicts ↔
        ∃ p1 ∈ products, ∃ p2 ∈ products, p1 ≠ p2 ∧
          ∃ i1 ∈ p1.ingredients, ∃ prof, table i1 = some prof ∧
            ∃ i2 ∈ p2.ingredients, i2 ∈ prof.conflicts ∧
              r = ⟨p1.name, i1, p2.name, i2, prof.waiting_time⟩) ∧
    (∀ (A B : Product) (X Y : String) (profX : IngredientProfile),
      A ≠ B → X ∈ A.ingredients → table X = some profX → Y ∈ profX.conflicts →
      Y ∈ B.ingredients →
      ∃ r ∈ (analyze_skincare_routine table [A, B]).conflicts,
        r.waiting_time = profX.waiting_time) := by
  constructor
  · intro products r
    exact mem_routineConflicts
  · intro A B X Y profX hne hX hprof hY hYB
    refine ⟨⟨A.name, X, B.name, Y, profX.waiting_time⟩, ?_, rfl⟩
    exact mem_routineConflicts.mpr
      ⟨A, by simp, B, by simp, hne, X, hX, profX, hprof, Y, hYB, hY, rfl⟩

/-- Witness for C1 at a concrete routine: retinol lists vitamin c as a
conflict, so the two-product routine reports a conflict carrying
retinol's 30-minute wait time. -/
theorem claim1_analyze_conflicts_exact_witness :
    ∃ r ∈ (analyze_skincare_routine ingredient_interactions
        [⟨"Retinol Serum", ["retinol"], "evening"⟩,
         ⟨"C Serum", ["vitamin c"], "morning"⟩]).conflicts,
      r.waiting_time = retinolProfile.waiting_time :=
  (claim1_analyze_conflicts_exact ingredient_interactions).2
    ⟨"Retinol Serum", ["retinol"], "evening"⟩ ⟨"C Serum", ["vitamin c"], "morning"⟩
    "retinol" "vitamin c" retinolProfile
    (by decide) (by decide) (by decide) (by decide) (by decide)

/-- C2: the humidity tags fire on the >20 thresholds with the
destination-minus-home direction checked first, are mutually exclusive,
and the UV (>2) and pollution (>20) tags fire independently. -/
theorem claim2_climate_thresholds (home dest : ClimateProfile) :
    ("high_humidity" ∈ climateChanges home dest ↔ dest.humidity - home.humidity > 20) ∧
    ("low_humidity" ∈ climateChanges home dest ↔
      ¬(dest.humidity - home.humidity > 20) ∧ home.humidity - dest.humidity > 20) ∧
    ¬("high_humidity" ∈ climateChanges home dest ∧
      "low_humidity" ∈ climateChanges home dest) ∧
    ("high_uv" ∈ climateChanges home dest ↔ dest.uv_index - home.uv_index > 2) ∧
    ("high_pollution" ∈ climateChanges home dest ↔
      dest.pollution_index - home.pollution_index > 20) := by
  unfold climateChanges
  split_ifs with h1 h2 h3 h4 <;> simp_all

/-- C5 fails: at home `{60,5,40}` and destination `{80,9,30}` the
humidity difference is exactly 20, which is not `> 20`, so the returned
`climate_changes` is `["high_uv"]`, not `["high_humidity","high_uv"]`. -/
theorem claim5_counterexample :
    (adjust_for_climate ingredient_interactions [⟨"Serum", ["retinol"], "evening"⟩]
        ⟨60, 5, 40⟩ ⟨80, 9, 30⟩).climate_changes ≠ ["high_humidity", "high_uv"] := by
  decide

/-- C5 amended: at those inputs exactly `[high_uv]` fires (the humidity
difference of 20 does not exceed the threshold), and for a product
containing an ingredient whose climateAdjustments table has a high_uv
entry, that ingredient appears exactly once in the ingredient-specific
adjustments. -/
theorem claim5_amended :
    (adjust_for_climate ingredient_interactions [⟨"Serum", ["retinol"], "evening"⟩]
        ⟨60, 5, 40⟩ ⟨80, 9, 30⟩).climate_changes = ["high_uv"] ∧
    (adjust_for_climate ingredient_interactions [⟨"Serum", ["retinol"], "evening"⟩]
        ⟨60, 5, 40⟩ ⟨80, 9, 30⟩).adjustments.filter
        (fun a => a.ingredient == some "retinol") =
      [⟨some "Serum", some "retinol", "high_uv", none, "night only"⟩] := by
  decide

/-- C6 fails: duplicating an ingredient occurrence duplicates conflict
records, so `analyze` differs between the original and deduplicated
routines at this input. -/
theorem claim6_counterexample :
    (analyze_skincare_routine ingredient_interactions
        ([⟨"A", ["retinol", "retinol"], "morning"⟩,
          ⟨"B", ["vitamin c"], "morning"⟩].map dedupProduct)).conflicts
      ≠ (analyze_skincare_routine ingredient_interactions
        [⟨"A", ["retinol", "retinol"], "morning"⟩,
         ⟨"B", ["vitamin c"], "morning"⟩]).conflicts := by
  decide

/-- C9: any location name outside the fixed table maps to the default
profile `{humidity 50, uv 5, pollution 40}`; in particular
`get_climate_data "Nonexistent City"` returns it. -/
theorem claim9_unknown_location_default :
    (∀ loc : String, loc ∉ climateLocations → get_climate_data loc = default_climate) ∧
    get_climate_data "Nonexistent City" = default_climate := by
  constructor
  · intro loc h
    simp only [climateLocations, List.mem_cons, List.not_mem_nil, or_false, not_or] at h
    obtain ⟨h1, h2, h3, h4, h5, h6, h7, h8, h9, h10, h11, h12⟩ := h
    simp [get_climate_data, h1, h2, h3, h4, h5, h6, h7, h8, h9, h10, h11, h12]
  · decide

/-- Witness for C9 at the concrete unknown name. -/
theorem claim9_unknown_location_default_witness :
    get_climate_data "Nonexistent City" = default_climate :=
  claim9_unknown_location_default.1 "Nonexistent City" (by decide)

/-- C4: a product whose governing (first active) ingredient has
frequency "once daily" is scheduled exactly once per day on every day
1..days, in the evening slot when the governing ingredient is retinol or
glycolic acid and the morning slot otherwise, regardless of the
product's preferredTime (which does not occur in the conclusion). -/
theorem claim4_once_daily_slot (table : Table) (p : Product) (days : Nat)
    (gov : String) (rest : List String) (prof : IngredientProfile)
    (hA : activeIngredients table p = gov :: rest)
    (hgov : table gov = some prof)
    (hfreq : prof.frequency = "once daily") :
    create_application_schedule table [p] days
      = some ((List.range' 1 days).map (fun d =>
          (d, if gov = "retinol" ∨ gov = "glycolic acid"
              then (⟨[], [p.name]⟩ : Slots) else ⟨[p.name], []⟩))) := by
  rw [schedule_single]
  simp only [scheduleProduct, hA, hgov, hfreq]
  rw [if_neg (show ¬("once daily" = "twice daily") by decide), if_pos trivial,
    foldl_appendSlot]
  unfold initSchedule
  rw [List.map_map]
  congr 1
  apply List.map_congr_left
  intro d hd
  have h1 : (List.range' 1 days).count d = 1 :=
    List.count_eq_one_of_mem (List.nodup_range' _ _ _ (by decide)) hd
  simp only [Function.comp_apply, h1]
  by_cases hg : gov = "retinol" ∨ gov = "glycolic acid" <;>
    simp [slotFor, addTimes, hg]

/-- Witness for C4: a once-daily retinol product with a stated morning
preference is nevertheless scheduled in the evening, every day. -/
theorem claim4_once_daily_slot_witness :
    create_application_schedule ingredient_interactions
        [⟨"Night Cream", ["retinol"], "morning"⟩] 7
      = some ((List.range' 1 7).map (fun d =>
          (d, if ("retinol" : String) = "retinol" ∨ ("retinol" : String) = "glycolic acid"
              then (⟨[], ["Night Cream"]⟩ : Slots) else ⟨["Night Cream"], []⟩))) :=
  claim4_once_daily_slot ingredient_interactions
    ⟨"Night Cream", ["retinol"], "morning"⟩ 7 "retinol" [] retinolProfile
    (by decide) (by decide) (by decide)

/-- C3: a product whose governing ingredient has an "N-M times weekly"
frequency (leading count N ≥ 1) is placed with interval
`max 1 (days / N)` exactly on the days `1, 1+interval, ...` up to
`days` (the keys below are `1..days` and the entry of day `d` is
non-empty exactly when `(d-1)` is a multiple of the interval), in the
evening slot for retinol/glycolic acid and the morning slot otherwise. -/
theorem claim3_weekly_interval (table : Table) (p : Product) (days : Nat)
    (gov : String) (rest : List String) (prof : IngredientProfile) (N : Nat)
    (hA : activeIngredients table p = gov :: rest)
    (hgov : table gov = some prof)
    (hw : hasWeekly prof.frequency = true)
    (hp : parseTimes prof.frequency = some N)
    (hN : 1 ≤ N) :
    create_application_schedule table [p] days
      = some ((List.range' 1 days).map (fun d =>
          (d, if (d - 1) % (max 1 (days / N)) = 0
              then (if gov = "retinol" ∨ gov = "glycolic acid"
                    then (⟨[], [p.name]⟩ : Slots) else ⟨[p.name], []⟩)
              else ⟨[], []⟩))) := by
  have h2 : ¬(prof.frequency = "twice daily") := by
    intro h; rw [h] at hw; exact absurd hw (by decide)
  have h1 : ¬(prof.frequency = "once daily") := by
    intro h; rw [h] at hw; exact absurd hw (by decide)
  have hN0 : ¬(N = 0) := by omega
  rw [schedule_single]
  simp only [scheduleProduct, hA, hgov, hp]
  rw [if_neg h2, if_neg h1, if_pos hw, if_neg hN0, foldl_appendSlot]
  unfold initSchedule
  rw [List.map_map]
  congr 1
  apply List.map_congr_left
  intro d hd
  have hI : 0 < max 1 (days / N) := le_max_left 1 _
  have hc := count_weeklyDays hI hd
  simp only [Function.comp_apply, hc]
  by_cases hm : (d - 1) % (max 1 (days / N)) = 0 <;>
    by_cases hg : gov = "retinol" ∨ gov = "glycolic acid" <;>
      simp [hm, hg, slotFor, addTimes, addTimes_zero]

/-- Witness for C3: a glycolic acid product ("2-3 times weekly", N = 2,
interval 3 for a 7-day schedule) lands on days 1, 4 and 7, evenings. -/
theorem claim3_weekly_interval_witness :
    create_application_schedule ingredient_interactions
        [⟨"AHA Exfoliant", ["glycolic acid"], "morning"⟩] 7
      = some ((List.range' 1 7).map (fun d =>
          (d, if (d - 1) % (max 1 (7 / 2)) = 0
              then (if ("glycolic acid" : String) = "retinol" ∨
                      ("glycolic acid" : String) = "glycolic acid"
                    then (⟨[], ["AHA Exfoliant"]⟩ : Slots) else ⟨["AHA Exfoliant"], []⟩)
              else ⟨[], []⟩))) :=
  claim3_weekly_interval ingredient_interactions
    ⟨"AHA Exfoliant", ["glycolic acid"], "morning"⟩ 7 "glycolic acid" []
    glycolicProfile 2 (by decide) (by decide) (by decide) (by decide) (by decide)

/-- C6 amended: `buildSchedule` is unchanged when each product's
duplicate ingredient occurrences are removed (keeping the first
occurrence); `analyze` and `adjustForClimate` are not invariant, since
duplicate occurrences duplicate the emitted records (see the
counterexample). -/
theorem claim6_schedule_dedup_invariant (table : Table) (products : List Product)
    (days : Nat) :
    create_application_schedule table (products.map dedupProduct) days
      = create_application_schedule table products days := by
  unfold create_application_schedule
  suffices hh : ∀ (l : List Product) (sched : Schedule),
      (l.map dedupProduct).foldlM (scheduleProduct table days) sched
        = l.foldlM (scheduleProduct table days) sched from hh products _
  intro l
  induction l with
  | nil => intro sched; rfl
  | cons p l ih =>
    intro sched
    rw [List.map_cons, List.foldlM_cons, List.foldlM_cons, scheduleProduct_dedup]
    cases scheduleProduct table days sched p
    · rfl
    · exact ih _

/-- C7: on the fixed ingredient table the schedule builder always
succeeds and returns a mapping whose keys are exactly 1..days in order,
each day carrying its two slot lists; hence no product is ever placed
outside those days and slots. -/
theorem claim7_schedule_keys (products : List Product) (days : Nat)
    (hdays : 1 ≤ days) :
    ∃ s, create_application_schedule ingredient_interactions products days = some s ∧
      s.map Prod.fst = List.range' 1 days := by
  have key : ∀ (l : List Product) (sched : Schedule),
      ∃ s, l.foldlM (scheduleProduct ingredient_interactions days) sched = some s ∧
        s.map Prod.fst = sched.map Prod.fst := by
    intro l
    induction l with
    | nil => intro sched; exact ⟨sched, rfl, rfl⟩
    | cons p l ih =>
      intro sched
      obtain ⟨s1, e1, k1⟩ := scheduleProduct_fixed_total days p sched
      obtain ⟨s, e, k⟩ := ih s1
      refine ⟨s, ?_, by rw [k, k1]⟩
      rw [List.foldlM_cons, e1]
      simpa using e
  obtain ⟨s, e, k⟩ := key products (initSchedule days)
  refine ⟨s, e, ?_⟩
  rw [k]
  unfold initSchedule
  rw [List.map_map]
  exact List.map_id _

/-- Witness for C7 on a concrete routine and a 7-day horizon. -/
theorem claim7_schedule_keys_witness :
    ∃ s, create_application_schedule ingredient_interactions
        [⟨"Gentle Cleanser", ["glycerin", "panthenol"], "both"⟩,
         ⟨"AHA Exfoliant", ["glycolic acid", "lactic acid"], "evening"⟩] 7 = some s ∧
      s.map Prod.fst = List.range' 1 7 :=
  claim7_schedule_keys
    [⟨"Gentle Cleanser", ["glycerin", "panthenol"], "both"⟩,
     ⟨"AHA Exfoliant", ["glycolic acid", "lactic acid"], "evening"⟩] 7 (by decide)

/-- C10: the schedule ignores conflict sets and wait times — two
ingredient tables registering the same names with the same frequencies
and climate adjustments yield identical schedules for every routine. -/
theorem claim10_schedule_ignores_conflicts (t1 t2 : Table)
    (h : ∀ n, (t1 n = none ∧ t2 n = none) ∨
      ∃ q1 q2, t1 n = some q1 ∧ t2 n = some q2 ∧
        q1.frequency = q2.frequency ∧ q1.climate_adjustments = q2.climate_adjustments) :
    ∀ (products : List Product) (days : Nat),
      create_application_schedule t1 products days
        = create_application_schedule t2 products days := by
  have hsome : ∀ n, (t1 n).isSome = (t2 n).isSome := by
    intro n
    rcases h n with ⟨h1, h2⟩ | ⟨q1, q2, h1, h2, _⟩
    · rw [h1, h2]
    · rw [h1, h2]
      rfl
  have hact : ∀ p, activeIngredients t1 p = activeIngredients t2 p := by
    intro p
    unfold activeIngredients
    apply List.filter_congr
    intro i _
    rw [hsome]
  have hprod : ∀ days sched p, scheduleProduct t1 days sched p
      = scheduleProduct t2 days sched p := by
    intro days sched p
    cases hA : activeIngredients t2 p with
    | nil => simp only [scheduleProduct, hact, hA]
    | cons gov rest =>
      rcases h gov with ⟨h1, h2⟩ | ⟨q1, q2, h1, h2, hf, _⟩
      · simp only [scheduleProduct, hact, hA, h1, h2]
      · simp only [scheduleProduct, hact, hA, h1, h2]
        rw [hf]
  intro products days
  unfold create_application_schedule
  suffices hh : ∀ (l : List Product) (sched : Schedule),
      l.foldlM (scheduleProduct t1 days) sched
        = l.foldlM (scheduleProduct t2 days) sched from hh products _
  intro l
  induction l with
  | nil => intro sched; rfl
  | cons p l ih =>
    intro sched
    rw [List.foldlM_cons, List.foldlM_cons, hprod]
    cases scheduleProduct t2 days sched p
    · rfl
    · exact ih _

/-- Witness for C10: stripping all conflict sets and wait times from the
fixed table leaves a concrete product's schedule unchanged. -/
theorem claim10_schedule_ignores_conflicts_witness :
    create_application_schedule ingredient_interactions
        [⟨"Serum", ["niacinamide"], "both"⟩] 7
      = create_application_schedule strippedTable
        [⟨"Serum", ["niacinamide"], "both"⟩] 7 :=
  claim10_schedule_ignores_conflicts ingredient_interactions strippedTable
    (fun n => by
      cases hq : ingredient_interactions n with
      | none =>
        refine Or.inl ⟨rfl, ?_⟩
        simp [strippedTable, hq]
      | some q =>
        refine Or.inr ⟨q, { q with conflicts := [], waiting_time := 0 }, rfl, ?_, rfl, rfl⟩
        simp [strippedTable, hq])
    [⟨"Serum", ["niacinamide"], "both"⟩] 7

/-! ## Graph lemmas for the analyzer's interaction graph -/

lemma edgeMatches_iff {u v : String} {e : String × String × EdgeAttr} :
    edgeMatches u v e = true ↔ (e.1 = u ∧ e.2.1 = v) ∨ (e.1 = v ∧ e.2.1 = u) := by
  unfold edgeMatches
  simp

lemma edgeMatches_comm (u v : String) (a : EdgeAttr) (e : String × String × EdgeAttr) :
    edgeMatches e.1 e.2.1 (u, v, a) = edgeMatches u v e := by
  rw [Bool.eq_iff_iff, edgeMatches_iff, edgeMatches_iff]
  dsimp only
  constructor
  · rintro (⟨rfl, rfl⟩ | ⟨rfl, rfl⟩)
    · exact Or.inl ⟨rfl, rfl⟩
    · exact Or.inr ⟨rfl, rfl⟩
  · rintro (⟨h1, h2⟩ | ⟨h1, h2⟩)
    · exact Or.inl ⟨h1.symm, h2.symm⟩
    · exact Or.inr ⟨h2.symm, h1.symm⟩

lemma mem_map_fst {ns : List (String × Option String)} {n : String} :
    n ∈ ns.map Prod.fst ↔ ∃ t, (n, t) ∈ ns := by
  rw [List.mem_map]
  constructor
  · rintro ⟨⟨m, t⟩, hm, rfl⟩
    exact ⟨t, hm⟩
  · rintro ⟨t, ht⟩
    exact ⟨(n, t), ht, rfl⟩

lemma NodesSpec.mem_names {ns : List (String × Option String)} {pns ins : List String}
    (h : NodesSpec ns pns ins) (n : String) :
    n ∈ ns.map Prod.fst ↔ n ∈ pns ∨ n ∈ ins := by
  rw [mem_map_fst]
  constructor
  · rintro ⟨t, ht⟩
    rcases (h.2 n t).mp ht with ⟨_, hp⟩ | ⟨_, hi⟩
    exacts [Or.inl hp, Or.inr hi]
  · rintro (hp | hi)
    · exact ⟨some "product", (h.2 n _).mpr (Or.inl ⟨rfl, hp⟩)⟩
    · exact ⟨some "ingredient", (h.2 n _).mpr (Or.inr ⟨rfl, hi⟩)⟩

lemma addNode_not_mem {g : Graph} {n : String} (t : String) (h : n ∉ nodeNames g) :
    addNode g n t = { g with nodes := g.nodes ++ [(n, some t)] } := by
  unfold addNode
  rw [if_neg h]

lemma addNode_edges (g : Graph) (n t : String) : (addNode g n t).edges = g.edges := by
  unfold addNode
  split <;> rfl

lemma NodesSpec.add_fresh_node {ns : List (String × Option String)} {pns ins : List String}
    (h : NodesSpec ns pns ins) {n : String} (hn1 : n ∉ pns) (hn2 : n ∉ ins)
    (tag : String) (htag : tag = "product" ∨ tag = "ingredient") :
    NodesSpec (ns ++ [(n, some tag)])
      (if tag = "product" then pns ++ [n] else pns)
      (if tag = "product" then ins else ins ++ [n]) := by
  have hnm : n ∉ ns.map Prod.fst := fun hc => by
    rcases (h.mem_names n).mp hc with hp | hi
    exacts [hn1 hp, hn2 hi]
  constructor
  · rw [List.map_append, List.nodup_append]
    refine ⟨h.1, List.nodup_singleton n, ?_⟩
    intro a ha hb
    simp only [List.map_cons, List.map_nil, List.mem_singleton] at hb
    subst hb
    exact hnm ha
  · intro m t
    rw [List.mem_append, h.2 m t, List.mem_singleton, Prod.mk.injEq]
    rcases htag with rfl | rfl
    · rw [if_pos rfl, if_pos rfl]
      simp only [List.mem_append, List.mem_singleton]
      constructor
      · rintro ((⟨ht, hm⟩ | ⟨ht, hm⟩) | ⟨rfl, rfl⟩)
        · exact Or.inl ⟨ht, Or.inl hm⟩
        · exact Or.inr ⟨ht, hm⟩
        · exact Or.inl ⟨rfl, Or.inr rfl⟩
      · rintro (⟨rfl, hm | rfl⟩ | ⟨rfl, hm⟩)
        · exact Or.inl (Or.inl ⟨rfl, hm⟩)
        · exact Or.inr ⟨rfl, rfl⟩
        · exact Or.inl (Or.inr ⟨rfl, hm⟩)
    · rw [if_neg (by decide), if_neg (by decide)]
      simp only [List.mem_append, List.mem_singleton]
      constructor
      · rintro ((⟨ht, hm⟩ | ⟨ht, hm⟩) | ⟨rfl, rfl⟩)
        · exact Or.inl ⟨ht, hm⟩
        · exact Or.inr ⟨ht, Or.inl hm⟩
        · exact Or.inr ⟨rfl, Or.inr rfl⟩
      · rintro (⟨rfl, hm⟩ | ⟨rfl, hm | rfl⟩)
        · exact Or.inl (Or.inl ⟨rfl, hm⟩)
        · exact Or.inl (Or.inr ⟨rfl, hm⟩)
        · exact Or.inr ⟨rfl, rfl⟩

lemma NodesSpec.ins_extend {ns : List (String × Option String)} {pns ins : List String}
    (h : NodesSpec ns pns ins) {i : String} (hi : i ∈ ins) :
    NodesSpec ns pns (ins ++ [i]) := by
  refine ⟨h.1, ?_⟩
  intro m t
  rw [h.2 m t]
  simp only [List.mem_append, List.mem_singleton]
  constructor
  · rintro (⟨ht, hm⟩ | ⟨ht, hm⟩)
    · exact Or.inl ⟨ht, hm⟩
    · exact Or.inr ⟨ht, Or.inl hm⟩
  · rintro (⟨ht, hm⟩ | ⟨ht, hm | rfl⟩)
    · exact Or.inl ⟨ht, hm⟩
    · exact Or.inr ⟨ht, hm⟩
    · exact Or.inr ⟨ht, hi⟩

lemma insertNodeIfAbsent_mem {ns : List (String × Option String)} {n : String}
    (h : n ∈ ns.map Prod.fst) : insertNodeIfAbsent ns n = ns := by
  unfold insertNodeIfAbsent
  rw [if_pos h]

lemma addEdge_edges (g : Graph) (u v : String) (f : EdgeAttr → EdgeAttr) (init : EdgeAttr) :
    (addEdge g u v f init).edges
      = if g.edges.any (edgeMatches u v) then
          g.edges.map (fun e => if edgeMatches u v e then (e.1, e.2.1, f e.2.2) else e)
        else g.edges ++ [(u, v, init)] := by
  unfold addEdge
  split <;> rfl

lemma addEdge_nodes_of_mem {g : Graph} {u v : String} (f : EdgeAttr → EdgeAttr)
    (init : EdgeAttr) (hu : u ∈ g.nodes.map Prod.fst) (hv : v ∈ g.nodes.map Prod.fst) :
    (addEdge g u v f init).nodes = g.nodes := by
  unfold addEdge
  have h1 : insertNodeIfAbsent g.nodes u = g.nodes := insertNodeIfAbsent_mem hu
  split <;> (dsimp only; rw [h1, insertNodeIfAbsent_mem hv])

lemma add_contains_spec {g : Graph} {P : List (String × String)} {pns : List String}
    {pname i : String}
    (hE : EdgesSpec g.edges P)
    (hpn : pname ∈ pns) (hip : i ∉ pns)
    (hP : ∀ pr ∈ P, pr.1 ∈ pns ∧ pr.2 ∉ pns) :
    EdgesSpec (addContainsEdge g pname i).edges (P ++ [(pname, i)]) := by
  obtain ⟨hsound, hcomp, hpw⟩ := hE
  have hmatch : ∀ e ∈ g.edges, edgeMatches pname i e = true → e.1 = pname ∧ e.2.1 = i := by
    intro e he hm
    rcases edgeMatches_iff.mp hm with ⟨h1, h2⟩ | ⟨h1, h2⟩
    · exact ⟨h1, h2⟩
    · exfalso
      obtain ⟨_, hpair⟩ := hsound e he
      obtain ⟨hfst, _⟩ := hP _ hpair
      exact hip (h1 ▸ hfst)
  unfold addContainsEdge
  rw [EdgesSpec, addEdge_edges]
  by_cases hany : g.edges.any (edgeMatches pname i) = true
  · rw [if_pos hany]
    have hid : g.edges.map
        (fun e => if edgeMatches pname i e then
          (e.1, e.2.1, ({ e.2.2 with etype := "contains" } : EdgeAttr)) else e) = g.edges := by
      have hpt : ∀ e ∈ g.edges,
          (if edgeMatches pname i e then
            (e.1, e.2.1, ({ e.2.2 with etype := "contains" } : EdgeAttr)) else e) = e := by
        intro e he
        split
        · obtain ⟨hattr, _⟩ := hsound e he
          rcases e with ⟨a, b, c⟩
          dsimp only at hattr ⊢
          rw [hattr]
        · rfl
      exact (List.map_congr_left hpt).trans (List.map_id _)
    rw [hid]
    obtain ⟨e, he, hm⟩ := List.any_eq_true.mp hany
    obtain ⟨h1, h2⟩ := hmatch e he hm
    refine ⟨?_, ?_, hpw⟩
    · intro e' he'
      obtain ⟨ha, hb⟩ := hsound e' he'
      exact ⟨ha, List.mem_append.mpr (Or.inl hb)⟩
    · intro pr hpr
      rcases List.mem_append.mp hpr with hpr | hpr
      · obtain ⟨e', he', ha, hb, hc⟩ := hcomp pr hpr
        exact ⟨e', he', ha, hb, hc⟩
      · rw [List.mem_singleton] at hpr
        subst hpr
        exact ⟨e, he, h1, h2, (hsound e he).1⟩
  · have hany' : g.edges.any (edgeMatches pname i) = false := by
      cases hq : g.edges.any (edgeMatches pname i)
      · rfl
      · exact absurd hq hany
    rw [if_neg hany]
    refine ⟨?_, ?_, ?_⟩
    · intro e he
      rcases List.mem_append.mp he with he | he
      · obtain ⟨ha, hb⟩ := hsound e he
        exact ⟨ha, List.mem_append.mpr (Or.inl hb)⟩
      · rw [List.mem_singleton] at he
        subst he
        exact ⟨rfl, List.mem_append.mpr (Or.inr (List.mem_singleton.mpr rfl))⟩
    · intro pr hpr
      rcases List.mem_append.mp hpr with hpr | hpr
      · obtain ⟨e', he', ha, hb, hc⟩ := hcomp pr hpr
        exact ⟨e', List.mem_append.mpr (Or.inl he'), ha, hb, hc⟩
      · rw [List.mem_singleton] at hpr
        subst hpr
        exact ⟨(pname, i, ⟨"contains", none⟩),
          List.mem_append.mpr (Or.inr (List.mem_singleton.mpr rfl)), rfl, rfl, rfl⟩
    · rw [List.pairwise_append]
      refine ⟨hpw, List.pairwise_singleton _ _, ?_⟩
      intro e1 he1 e2 he2
      rw [List.mem_singleton] at he2
      subst he2
      rw [edgeMatches_comm]
      have hf := List.any_eq_false.mp hany' e1 he1
      cases hq : edgeMatches pname i e1
      · rfl
      · exact absurd hq hf

lemma contains_fold {pname : String} :
    ∀ (il : List String) (g : Graph) (pns ins : List String) (P : List (String × String)),
      NodesSpec g.nodes pns ins → EdgesSpec g.edges P →
      pname ∈ pns → (∀ i ∈ il, i ∉ pns) →
      (∀ pr ∈ P, pr.1 ∈ pns ∧ pr.2 ∉ pns) →
      NodesSpec (il.foldl (fun g i =>
          addContainsEdge (if i ∈ nodeNames g then g else addNode g i "ingredient") pname i)
        g).nodes pns (ins ++ il) ∧
      EdgesSpec (il.foldl (fun g i =>
          addContainsEdge (if i ∈ nodeNames g then g else addNode g i "ingredient") pname i)
        g).edges (P ++ il.map (fun i => (pname, i))) := by
  intro il
  induction il with
  | nil =>
    intro g pns ins P hN hE _ _ _
    simpa using ⟨hN, hE⟩
  | cons i il ih =>
    intro g pns ins P hN hE hpn hil hP
    rw [List.foldl_cons]
    have hip : i ∉ pns := hil i (List.mem_cons_self i il)
    have hN1 : NodesSpec (if i ∈ nodeNames g then g else addNode g i "ingredient").nodes
        pns (ins ++ [i]) := by
      by_cases hm : i ∈ nodeNames g
      · rw [if_pos hm]
        rcases (hN.mem_names i).mp hm with hp | hi
        · exact absurd hp hip
        · exact hN.ins_extend hi
      · rw [if_neg hm, addNode_not_mem "ingredient" hm]
        have hni : i ∉ ins := fun hc => hm ((hN.mem_names i).mpr (Or.inr hc))
        have := hN.add_fresh_node hip hni "ingredient" (Or.inr rfl)
        rw [if_neg (by decide), if_neg (by decide)] at this
        exact this
    have hE1 : EdgesSpec (if i ∈ nodeNames g then g else addNode g i "ingredient").edges P := by
      by_cases hm : i ∈ nodeNames g
      · rw [if_pos hm]; exact hE
      · rw [if_neg hm, addNode_edges]; exact hE
    have hstep := add_contains_spec hE1 hpn hip hP
    have hpn1 : pname ∈ (if i ∈ nodeNames g then g
        else addNode g i "ingredient").nodes.map Prod.fst :=
      (hN1.mem_names pname).mpr (Or.inl hpn)
    have hi1 : i ∈ (if i ∈ nodeNames g then g
        else addNode g i "ingredient").nodes.map Prod.fst :=
      (hN1.mem_names i).mpr (Or.inr (List.mem_append.mpr (Or.inr (List.mem_singleton.mpr rfl))))
    have hne : (addContainsEdge (if i ∈ nodeNames g then g else addNode g i "ingredient")
        pname i).nodes = (if i ∈ nodeNames g then g else addNode g i "ingredient").nodes := by
      unfold addContainsEdge
      exact addEdge_nodes_of_mem _ _ hpn1 hi1
    have hN2 : NodesSpec (addContainsEdge (if i ∈ nodeNames g then g
        else addNode g i "ingredient") pname i).nodes pns (ins ++ [i]) := by
      rw [hne]; exact hN1
    have hP2 : ∀ pr ∈ P ++ [(pname, i)], pr.1 ∈ pns ∧ pr.2 ∉ pns := by
      intro pr hpr
      rcases List.mem_append.mp hpr with hpr | hpr
      · exact hP pr hpr
      · rw [List.mem_singleton] at hpr
        subst hpr
        exact ⟨hpn, hip⟩
    have hrec := ih (addContainsEdge (if i ∈ nodeNames g then g
        else addNode g i "ingredient") pname i) pns (ins ++ [i]) (P ++ [(pname, i)])
      hN2 hstep hpn (fun j hj => hil j (List.mem_cons_of_mem _ hj)) hP2
    constructor
    · have h1 := hrec.1
      rwa [List.append_assoc] at h1
    · have h2 := hrec.2
      rwa [List.append_assoc] at h2

lemma addProduct_spec {g : Graph} {pns ins : List String} {P : List (String × String)}
    {p : Product}
    (hN : NodesSpec g.nodes pns ins) (hE : EdgesSpec g.edges P)
    (hfresh1 : p.name ∉ pns) (hfresh2 : p.name ∉ ins)
    (hingr : ∀ i ∈ p.ingredients, i ∉ pns ++ [p.name])
    (hP : ∀ pr ∈ P, pr.1 ∈ pns ∧ pr.2 ∉ pns)
    (hPname : ∀ pr ∈ P, pr.2 ≠ p.name) :
    NodesSpec (addProductToGraph g p).nodes (pns ++ [p.name]) (ins ++ p.ingredients) ∧
    EdgesSpec (addProductToGraph g p).edges (P ++ p.ingredients.map (fun i => (p.name, i))) := by
  unfold addProductToGraph
  have hnm : p.name ∉ nodeNames g := fun hc => by
    rcases (hN.mem_names p.name).mp hc with hp | hi
    exacts [hfresh1 hp, hfresh2 hi]
  have hN0 : NodesSpec (addNode g p.name "product").nodes (pns ++ [p.name]) ins := by
    rw [addNode_not_mem "product" hnm]
    have := hN.add_fresh_node hfresh1 hfresh2 "product" (Or.inl rfl)
    rw [if_pos rfl, if_pos rfl] at this
    exact this
  have hE0 : EdgesSpec (addNode g p.name "product").edges P := by
    rw [addNode_edges]; exact hE
  have hpn : p.name ∈ pns ++ [p.name] :=
    List.mem_append.mpr (Or.inr (List.mem_singleton.mpr rfl))
  have hP0 : ∀ pr ∈ P, pr.1 ∈ pns ++ [p.name] ∧ pr.2 ∉ pns ++ [p.name] := by
    intro pr hpr
    obtain ⟨h1, h2⟩ := hP pr hpr
    refine ⟨List.mem_append.mpr (Or.inl h1), ?_⟩
    intro hc
    rcases List.mem_append.mp hc with hc | hc
    · exact h2 hc
    · exact hPname pr hpr (List.mem_singleton.mp hc)
  exact contains_fold p.ingredients (addNode g p.name "product")
    (pns ++ [p.name]) ins P hN0 hE0 hpn hingr hP0

lemma products_fold :
    ∀ (todo : List Product) (g : Graph) (pns ins : List String) (P : List (String × String)),
      NodesSpec g.nodes pns ins → EdgesSpec g.edges P →
      (pns ++ todo.map Product.name).Nodup →
      (∀ p ∈ todo, p.name ∉ ins) →
      (∀ p ∈ todo, ∀ i ∈ p.ingredients, i ∉ pns ++ todo.map Product.name) →
      (∀ pr ∈ P, pr.1 ∈ pns ∧ pr.2 ∉ pns ++ todo.map Product.name) →
      NodesSpec (todo.foldl addProductToGraph g).nodes (pns ++ todo.map Product.name)
        (ins ++ allIngredients todo) ∧
      EdgesSpec (todo.foldl addProductToGraph g).edges (P ++ containsPairs todo) := by
  intro todo
  induction todo with
  | nil =>
    intro g pns ins P hN hE _ _ _ _
    simpa [allIngredients, containsPairs] using ⟨hN, hE⟩
  | cons p todo ih =>
    intro g pns ins P hN hE hnd hins hingr hP
    rw [List.foldl_cons]
    have hassoc : pns ++ (p :: todo).map Product.name
        = (pns ++ [p.name]) ++ todo.map Product.name := by
      simp
    have hfresh1 : p.name ∉ pns := by
      rw [List.nodup_append] at hnd
      intro hc
      exact hnd.2.2 hc (by simp)
    have hfresh2 : p.name ∉ ins := hins p (List.mem_cons_self _ _)
    have hingrp : ∀ i ∈ p.ingredients, i ∉ pns ++ [p.name] := by
      intro i hi hc
      refine hingr p (List.mem_cons_self _ _) i hi ?_
      rcases List.mem_append.mp hc with hc | hc
      · exact List.mem_append.mpr (Or.inl hc)
      · rw [List.mem_singleton] at hc
        subst hc
        exact List.mem_append.mpr (Or.inr (by simp))
    have hPp : ∀ pr ∈ P, pr.1 ∈ pns ∧ pr.2 ∉ pns := by
      intro pr hpr
      obtain ⟨h1, h2⟩ := hP pr hpr
      exact ⟨h1, fun hc => h2 (List.mem_append.mpr (Or.inl hc))⟩
    have hPname : ∀ pr ∈ P, pr.2 ≠ p.name := by
      intro pr hpr hc
      refine (hP pr hpr).2 ?_
      rw [hc]
      exact List.mem_append.mpr (Or.inr (by simp))
    obtain ⟨hN1, hE1⟩ := addProduct_spec hN hE hfresh1 hfresh2 hingrp hPp hPname
    have hnd1 : ((pns ++ [p.name]) ++ todo.map Product.name).Nodup := by
      rw [← hassoc]
      simpa using hnd
    have hins1 : ∀ q ∈ todo, q.name ∉ ins ++ p.ingredients := by
      intro q hq hc
      rcases List.mem_append.mp hc with hc | hc
      · exact hins q (List.mem_cons_of_mem _ hq) hc
      · refine hingr p (List.mem_cons_self _ _) q.name hc ?_
        exact List.mem_append.mpr
          (Or.inr (List.mem_map.mpr ⟨q, List.mem_cons_of_mem _ hq, rfl⟩))
    have hingr1 : ∀ q ∈ todo, ∀ i ∈ q.ingredients,
        i ∉ (pns ++ [p.name]) ++ todo.map Product.name := by
      intro q hq i hi hc
      rw [← hassoc] at hc
      exact hingr q (List.mem_cons_of_mem _ hq) i hi (by
        rcases List.mem_append.mp hc with hc | hc
        · exact List.mem_append.mpr (Or.inl hc)
        · exact List.mem_append.mpr (Or.inr hc))
    have hP1 : ∀ pr ∈ P ++ p.ingredients.map (fun i => (p.name, i)),
        pr.1 ∈ pns ++ [p.name] ∧ pr.2 ∉ (pns ++ [p.name]) ++ todo.map Product.name := by
      intro pr hpr
      rw [← hassoc]
      rcases List.mem_append.mp hpr with hpr | hpr
      · obtain ⟨h1, h2⟩ := hP pr hpr
        exact ⟨List.mem_append.mpr (Or.inl h1), fun hc => h2 (by
          rcases List.mem_append.mp hc with hc | hc
          · exact List.mem_append.mpr (Or.inl hc)
          · exact List.mem_append.mpr (Or.inr hc))⟩
      · obtain ⟨i, hi, hpr⟩ := List.mem_map.mp hpr
        subst hpr
        refine ⟨List.mem_append.mpr (Or.inr (by simp)), ?_⟩
        intro hc
        exact hingr p (List.mem_cons_self _ _) i hi (by
          rcases List.mem_append.mp hc with hc | hc
          · exact List.mem_append.mpr (Or.inl hc)
          · exact List.mem_append.mpr (Or.inr hc))
    have hrec := ih (addProductToGraph g p) (pns ++ [p.name]) (ins ++ p.ingredients)
      (P ++ p.ingredients.map (fun i => (p.name, i))) hN1 hE1 hnd1 hins1 hingr1 hP1
    have hall : allIngredients (p :: todo) = p.ingredients ++ allIngredients todo := by
      simp [allIngredients]
    have hcp : containsPairs (p :: todo)
        = p.ingredients.map (fun i => (p.name, i)) ++ containsPairs todo := by
      simp [containsPairs]
    constructor
    · have h1 := hrec.1
      rw [hassoc, hall, ← List.append_assoc]
      exact h1
    · have h2 := hrec.2
      rw [hcp, ← List.append_assoc]
      exact h2

lemma add_conflict_spec {g : Graph} {E0 : List (String × String × EdgeAttr)}
    {pns ins : List String} {done : List ConflictRecord} {c : ConflictRecord}
    (hC : ConflictSpec g.edges E0 ins done)
    (hE0 : ∀ e ∈ E0, e.1 ∈ pns ∧ e.2.1 ∈ ins)
    (hdisj : ∀ n ∈ ins, n ∉ pns)
    (h1 : c.ingredient1 ∈ ins) (h2 : c.ingredient2 ∈ ins) :
    ConflictSpec (addConflictEdge g c.ingredient1 c.ingredient2 c.waiting_time).edges
      E0 ins (done ++ [c]) := by
  obtain ⟨⟨extra, hsplit, hextra⟩, hcomp, hpw⟩ := hC
  have hupd : ∀ (u v : String) (e : String × String × EdgeAttr),
      edgeMatches u v (if edgeMatches c.ingredient1 c.ingredient2 e
        then (e.1, e.2.1, (⟨"conflict", some c.waiting_time⟩ : EdgeAttr)) else e)
      = edgeMatches u v e := by
    intro u v e
    split <;> rfl
  have hE0_nomatch : ∀ e ∈ E0, ¬(edgeMatches c.ingredient1 c.ingredient2 e = true) := by
    intro e he hm
    rcases edgeMatches_iff.mp hm with ⟨ha, _⟩ | ⟨ha, _⟩
    · exact hdisj c.ingredient1 h1 (ha ▸ (hE0 e he).1)
    · exact hdisj c.ingredient2 h2 (ha ▸ (hE0 e he).1)
  unfold addConflictEdge
  rw [ConflictSpec, addEdge_edges]
  by_cases hany : g.edges.any (edgeMatches c.ingredient1 c.ingredient2) = true
  · rw [if_pos hany]
    rw [hsplit, List.map_append]
    have hE0id : E0.map (fun e => if edgeMatches c.ingredient1 c.ingredient2 e
        then (e.1, e.2.1, (⟨"conflict", some c.waiting_time⟩ : EdgeAttr)) else e) = E0 := by
      have hpt : ∀ e ∈ E0, (if edgeMatches c.ingredient1 c.ingredient2 e
          then (e.1, e.2.1, (⟨"conflict", some c.waiting_time⟩ : EdgeAttr)) else e) = e := by
        intro e he
        rw [if_neg (hE0_nomatch e he)]
      exact (List.map_congr_left hpt).trans (List.map_id _)
    rw [hE0id]
    obtain ⟨ew, hew, hewm⟩ := List.any_eq_true.mp hany
    refine ⟨⟨extra.map _, rfl, ?_⟩, ?_, ?_⟩
    · intro e' he'
      obtain ⟨e, he, rfl⟩ := List.mem_map.mp he'
      by_cases hm : edgeMatches c.ingredient1 c.ingredient2 e = true
      · rw [if_pos hm]
        obtain ⟨_, hi1, hi2, _⟩ := hextra e he
        exact ⟨rfl, hi1, hi2, c,
          List.mem_append.mpr (Or.inr (List.mem_singleton.mpr rfl)),
          by rw [show edgeMatches c.ingredient1 c.ingredient2
              (e.1, e.2.1, (⟨"conflict", some c.waiting_time⟩ : EdgeAttr))
            = edgeMatches c.ingredient1 c.ingredient2 e from rfl]; exact hm⟩
      · rw [if_neg hm]
        obtain ⟨ht, hi1, hi2, c', hc', hm'⟩ := hextra e he
        exact ⟨ht, hi1, hi2, c', List.mem_append.mpr (Or.inl hc'), hm'⟩
    · intro c' hc'
      rcases List.mem_append.mp hc' with hc' | hc'
      · obtain ⟨e, he, ht, hm'⟩ := hcomp c' hc'
        rw [hsplit] at he
        rcases List.mem_append.mp he with he | he
        · exact ⟨e, List.mem_append.mpr (Or.inl he), ht, hm'⟩
        · refine ⟨(if edgeMatches c.ingredient1 c.ingredient2 e
              then (e.1, e.2.1, (⟨"conflict", some c.waiting_time⟩ : EdgeAttr)) else e),
            List.mem_append.mpr (Or.inr (List.mem_map_of_mem _ he)), ?_, ?_⟩
          · split
            · rfl
            · exact ht
          · rw [hupd]
            exact hm'
      · rw [List.mem_singleton] at hc'
        rw [hc']
        rw [hsplit] at hew
        rcases List.mem_append.mp hew with hew' | hew'
        · exact absurd hewm (hE0_nomatch ew hew')
        · refine ⟨(ew.1, ew.2.1, (⟨"conflict", some c.waiting_time⟩ : EdgeAttr)),
            ?_, rfl, ?_⟩
          · exact List.mem_append.mpr
              (Or.inr (List.mem_map.mpr ⟨ew, hew', by rw [if_pos hewm]⟩))
          · rw [show edgeMatches c.ingredient1 c.ingredient2
                (ew.1, ew.2.1, (⟨"conflict", some c.waiting_time⟩ : EdgeAttr))
              = edgeMatches c.ingredient1 c.ingredient2 ew from rfl]
            exact hewm
    · rw [hsplit, List.pairwise_append] at hpw
      obtain ⟨hpwE, hpwX, hcross⟩ := hpw
      rw [List.pairwise_append]
      refine ⟨hpwE, ?_, ?_⟩
      · rw [List.pairwise_map]
        refine hpwX.imp ?_
        intro a b hab
        have hka : ((if edgeMatches c.ingredient1 c.ingredient2 a
            then (a.1, a.2.1, (⟨"conflict", some c.waiting_time⟩ : EdgeAttr)) else a)).1
            = a.1 := by split <;> rfl
        have hka2 : ((if edgeMatches c.ingredient1 c.ingredient2 a
            then (a.1, a.2.1, (⟨"conflict", some c.waiting_time⟩ : EdgeAttr)) else a)).2.1
            = a.2.1 := by split <;> rfl
        rw [hka, hka2, hupd]
        exact hab
      · intro e0 he0 e' he'
        obtain ⟨e, he, rfl⟩ := List.mem_map.mp he'
        rw [hupd]
        exact hcross e0 he0 e he
  · have hany' : g.edges.any (edgeMatches c.ingredient1 c.ingredient2) = false := by
      cases hq : g.edges.any (edgeMatches c.ingredient1 c.ingredient2)
      · rfl
      · exact absurd hq hany
    rw [if_neg hany]
    rw [hsplit, List.append_assoc]
    refine ⟨⟨extra ++ [(c.ingredient1, c.ingredient2,
      (⟨"conflict", some c.waiting_time⟩ : EdgeAttr))], rfl, ?_⟩, ?_, ?_⟩
    · intro e he
      rcases List.mem_append.mp he with he | he
      · obtain ⟨ht, hi1, hi2, c', hc', hm'⟩ := hextra e he
        exact ⟨ht, hi1, hi2, c', List.mem_append.mpr (Or.inl hc'), hm'⟩
      · rw [List.mem_singleton] at he
        subst he
        exact ⟨rfl, h1, h2, c,
          List.mem_append.mpr (Or.inr (List.mem_singleton.mpr rfl)),
          edgeMatches_iff.mpr (Or.inl ⟨rfl, rfl⟩)⟩
    · intro c' hc'
      rcases List.mem_append.mp hc' with hc' | hc'
      · obtain ⟨e, he, ht, hm'⟩ := hcomp c' hc'
        rw [hsplit] at he
        refine ⟨e, ?_, ht, hm'⟩
        rcases List.mem_append.mp he with he | he
        · exact List.mem_append.mpr (Or.inl he)
        · exact List.mem_append.mpr
            (Or.inr (List.mem_append.mpr (Or.inl he)))
      · rw [List.mem_singleton] at hc'
        rw [hc']
        exact ⟨(c.ingredient1, c.ingredient2,
            (⟨"conflict", some c.waiting_time⟩ : EdgeAttr)),
          List.mem_append.mpr (Or.inr (List.mem_append.mpr
            (Or.inr (List.mem_singleton.mpr rfl)))), rfl,
          edgeMatches_iff.mpr (Or.inl ⟨rfl, rfl⟩)⟩
    · rw [← List.append_assoc, List.pairwise_append]
      rw [hsplit] at hpw
      refine ⟨hpw, List.pairwise_singleton _ _, ?_⟩
      intro e1 he1 e2 he2
      rw [List.mem_singleton] at he2
      subst he2
      rw [edgeMatches_comm]
      have hf := List.any_eq_false.mp hany' e1 (by rw [hsplit]; exact he1)
      cases hq : edgeMatches c.ingredient1 c.ingredient2 e1
      · rfl
      · exact absurd hq hf

lemma conflict_fold :
    ∀ (cl : List ConflictRecord) (g : Graph) (E0 : List (String × String × EdgeAttr))
      (pns ins : List String) (done : List ConflictRecord),
      NodesSpec g.nodes pns ins →
      ConflictSpec g.edges E0 ins done →
      (∀ e ∈ E0, e.1 ∈ pns ∧ e.2.1 ∈ ins) →
      (∀ n ∈ ins, n ∉ pns) →
      (∀ c ∈ cl, c.ingredient1 ∈ ins ∧ c.ingredient2 ∈ ins) →
      NodesSpec (cl.foldl (fun g c =>
          if c.ingredient1 ∈ nodeNames g ∧ c.ingredient2 ∈ nodeNames g then
            addConflictEdge g c.ingredient1 c.ingredient2 c.waiting_time
          else g) g).nodes pns ins ∧
      ConflictSpec (cl.foldl (fun g c =>
          if c.ingredient1 ∈ nodeNames g ∧ c.ingredient2 ∈ nodeNames g then
            addConflictEdge g c.ingredient1 c.ingredient2 c.waiting_time
          else g) g).edges E0 ins (done ++ cl) := by
  intro cl
  induction cl with
  | nil =>
    intro g E0 pns ins done hN hC _ _ _
    simpa using ⟨hN, hC⟩
  | cons c cl ih =>
    intro g E0 pns ins done hN hC hE0 hdisj hcl
    rw [List.foldl_cons]
    obtain ⟨hc1, hc2⟩ := hcl c (List.mem_cons_self _ _)
    have hm1 : c.ingredient1 ∈ nodeNames g := (hN.mem_names _).mpr (Or.inr hc1)
    have hm2 : c.ingredient2 ∈ nodeNames g := (hN.mem_names _).mpr (Or.inr hc2)
    rw [if_pos ⟨hm1, hm2⟩]
    have hne : (addConflictEdge g c.ingredient1 c.ingredient2 c.waiting_time).nodes
        = g.nodes := by
      unfold addConflictEdge
      exact addEdge_nodes_of_mem _ _ hm1 hm2
    have hN1 : NodesSpec (addConflictEdge g c.ingredient1 c.ingredient2
        c.waiting_time).nodes pns ins := by
      rw [hne]; exact hN
    have hC1 := add_conflict_spec hC hE0 hdisj hc1 hc2
    have hrec := ih (addConflictEdge g c.ingredient1 c.ingredient2 c.waiting_time)
      E0 pns ins (done ++ [c]) hN1 hC1 hE0 hdisj
      (fun c' hc' => hcl c' (List.mem_cons_of_mem _ hc'))
    rw [List.append_assoc] at hrec
    exact hrec

lemma mem_allIngredients {products : List Product} {n : String} :
    n ∈ allIngredients products ↔ ∃ p ∈ products, n ∈ p.ingredients := by
  unfold allIngredients
  exact List.mem_flatMap

/-- C8 fails as stated: when a product's name coincides with an
ingredient name, the ingredient keeps the product-tagged node and no
ingredient-tagged node is created for it. -/
theorem claim8_counterexample :
    "retinol" ∈ allIngredients
      [⟨"retinol", ["hyaluronic acid"], "both"⟩, ⟨"B", ["retinol"], "both"⟩] ∧
    ("retinol", some "ingredient") ∉ (analyze_skincare_routine ingredient_interactions
      [⟨"retinol", ["hyaluronic acid"], "both"⟩, ⟨"B", ["retinol"], "both"⟩]).graph.nodes := by
  decide

/-- C8 amended: provided product names are pairwise distinct and no
ingredient name coincides with a product name, the graph has exactly one
product-tagged node per product name, exactly one ingredient-tagged node
per distinct referenced ingredient (registered or not), node names are
pairwise distinct, a contains edge joins each product to each of its
ingredients, a conflict edge joins the two ingredients of every emitted
conflict record, and no two edges share an unordered endpoint pair. -/
theorem claim8_graph_structure (table : Table) (products : List Product)
    (hnodup : (products.map Product.name).Nodup)
    (hdisj : ∀ p ∈ products, ∀ i ∈ p.ingredients, i ∉ products.map Product.name) :
    (∀ n, (n, some "product") ∈ (analyze_skincare_routine table products).graph.nodes
        ↔ n ∈ products.map Product.name) ∧
    (∀ n, (n, some "ingredient") ∈ (analyze_skincare_routine table products).graph.nodes
        ↔ ∃ p ∈ products, n ∈ p.ingredients) ∧
    ((analyze_skincare_routine table products).graph.nodes.map Prod.fst).Nodup ∧
    (∀ p ∈ products, ∀ i ∈ p.ingredients,
      ∃ e ∈ (analyze_skincare_routine table products).graph.edges,
        e.1 = p.name ∧ e.2.1 = i ∧ e.2.2.etype = "contains") ∧
    (∀ c ∈ (analyze_skincare_routine table products).conflicts,
      ∃ e ∈ (analyze_skincare_routine table products).graph.edges,
        ((e.1 = c.ingredient1 ∧ e.2.1 = c.ingredient2) ∨
         (e.1 = c.ingredient2 ∧ e.2.1 = c.ingredient1)) ∧ e.2.2.etype = "conflict") ∧
    List.Pairwise (fun e1 e2 =>
        ¬((e2.1 = e1.1 ∧ e2.2.1 = e1.2.1) ∨ (e2.1 = e1.2.1 ∧ e2.2.1 = e1.1)))
      (analyze_skincare_routine table products).graph.edges := by
  have hbase_nodes : NodesSpec ((⟨[], []⟩ : Graph).nodes) [] [] := by
    refine ⟨List.nodup_nil, ?_⟩
    intro n t
    simp
  have hbase_edges : EdgesSpec ((⟨[], []⟩ : Graph).edges) [] := by
    refine ⟨?_, ?_, List.Pairwise.nil⟩ <;> simp
  obtain ⟨hN1, hE1⟩ := products_fold products ⟨[], []⟩ [] [] []
    hbase_nodes hbase_edges (by simpa using hnodup) (by simp)
    (by simpa using hdisj) (by simp)
  rw [List.nil_append] at hN1 hE1
  have hdisj' : ∀ n ∈ allIngredients products, n ∉ products.map Product.name := by
    intro n hn
    obtain ⟨p, hp, hip⟩ := mem_allIngredients.mp hn
    exact hdisj p hp n hip
  have hconf_mem : ∀ c ∈ routineConflicts table products,
      c.ingredient1 ∈ allIngredients products ∧ c.ingredient2 ∈ allIngredients products := by
    intro c hc
    obtain ⟨p1, hp1, p2, hp2, _, i1, hi1, prof, _, i2, hi2, _, rfl⟩ :=
      mem_routineConflicts.mp hc
    exact ⟨mem_allIngredients.mpr ⟨p1, hp1, hi1⟩, mem_allIngredients.mpr ⟨p2, hp2, hi2⟩⟩
  have hE0 : ∀ e ∈ (products.foldl addProductToGraph ⟨[], []⟩).edges,
      e.1 ∈ products.map Product.name ∧ e.2.1 ∈ allIngredients products := by
    intro e he
    obtain ⟨_, hpair⟩ := hE1.1 e he
    obtain ⟨q, hq, hin⟩ := List.mem_flatMap.mp hpair
    obtain ⟨i, hi, heq⟩ := List.mem_map.mp hin
    rw [Prod.mk.injEq] at heq
    obtain ⟨h1, h2⟩ := heq
    constructor
    · rw [← h1]
      exact List.mem_map.mpr ⟨q, hq, rfl⟩
    · rw [← h2]
      exact mem_allIngredients.mpr ⟨q, hq, hi⟩
  have hCS : ConflictSpec (products.foldl addProductToGraph ⟨[], []⟩).edges
      (products.foldl addProductToGraph ⟨[], []⟩).edges (allIngredients products) [] := by
    refine ⟨⟨[], (List.append_nil _).symm, by simp⟩, by simp, hE1.2.2⟩
  obtain ⟨hN2, hC2⟩ := conflict_fold (routineConflicts table products)
    (products.foldl addProductToGraph ⟨[], []⟩)
    (products.foldl addProductToGraph ⟨[], []⟩).edges
    (products.map Product.name) (allIngredients products) []
    hN1 hCS hE0 hdisj' hconf_mem
  rw [List.nil_append] at hC2
  have hgr : (analyze_skincare_routine table products).graph
      = (routineConflicts table products).foldl (fun g c =>
          if c.ingredient1 ∈ nodeNames g ∧ c.ingredient2 ∈ nodeNames g then
            addConflictEdge g c.ingredient1 c.ingredient2 c.waiting_time
          else g) (products.foldl addProductToGraph ⟨[], []⟩) := rfl
  have hcf : (analyze_skincare_routine table products).conflicts
      = routineConflicts table products := rfl
  obtain ⟨extra, hsplit, _⟩ := hC2.1
  refine ⟨?_, ?_, ?_, ?_, ?_, ?_⟩
  · intro n
    rw [hgr, hN2.2 n (some "product")]
    simp
  · intro n
    rw [hgr, hN2.2 n (some "ingredient")]
    rw [mem_allIngredients]
    simp
  · rw [hgr]
    exact hN2.1
  · intro p hp i hi
    have hpr : (p.name, i) ∈ containsPairs products :=
      List.mem_flatMap.mpr ⟨p, hp, List.mem_map.mpr ⟨i, hi, rfl⟩⟩
    obtain ⟨e, he, h1, h2, h3⟩ := hE1.2.1 (p.name, i) hpr
    refine ⟨e, ?_, h1, h2, by rw [h3]⟩
    rw [hgr, hsplit]
    exact List.mem_append.mpr (Or.inl he)
  · intro c hc
    rw [hcf] at hc
    obtain ⟨e, he, ht, hm⟩ := hC2.2.1 c hc
    refine ⟨e, ?_, ?_, ht⟩
    · rw [hgr]
      exact he
    · rcases edgeMatches_iff.mp hm with h | h
      exacts [Or.inl h, Or.inr h]
  · rw [hgr]
    refine hC2.2.2.imp ?_
    intro e1 e2 h12 hc
    have : edgeMatches e1.1 e1.2.1 e2 = true := edgeMatches_iff.mpr hc
    rw [h12] at this
    exact Bool.false_ne_true this

/-- Witness for the amended C8 on a concrete two-product routine with
distinct names disjoint from its ingredient names. -/
theorem claim8_graph_structure_witness :
    (∀ n, (n, some "product") ∈ (analyze_skincare_routine ingredient_interactions
        [⟨"P1", ["retinol"], "evening"⟩, ⟨"P2", ["vitamin c"], "morning"⟩]).graph.nodes
        ↔ n ∈ ([⟨"P1", ["retinol"], "evening"⟩,
                 ⟨"P2", ["vitamin c"], "morning"⟩] : List Product).map Product.name) ∧
    (∀ n, (n, some "ingredient") ∈ (analyze_skincare_routine ingredient_interactions
        [⟨"P1", ["retinol"], "evening"⟩, ⟨"P2", ["vitamin c"], "morning"⟩]).graph.nodes
        ↔ ∃ p ∈ ([⟨"P1", ["retinol"], "evening"⟩,
                   ⟨"P2", ["vitamin c"], "morning"⟩] : List Product), n ∈ p.ingredients) ∧
    ((analyze_skincare_routine ingredient_interactions
        [⟨"P1", ["retinol"], "evening"⟩,
         ⟨"P2", ["vitamin c"], "morning"⟩]).graph.nodes.map Prod.fst).Nodup ∧
    (∀ p ∈ ([⟨"P1", ["retinol"], "evening"⟩,
             ⟨"P2", ["vitamin c"], "morning"⟩] : List Product), ∀ i ∈ p.ingredients,
      ∃ e ∈ (analyze_skincare_routine ingredient_interactions
          [⟨"P1", ["retinol"], "evening"⟩, ⟨"P2", ["vitamin c"], "morning"⟩]).graph.edges,
        e.1 = p.name ∧ e.2.1 = i ∧ e.2.2.etype = "contains") ∧
    (∀ c ∈ (analyze_skincare_routine ingredient_interactions
        [⟨"P1", ["retinol"], "evening"⟩, ⟨"P2", ["vitamin c"], "morning"⟩]).conflicts,
      ∃ e ∈ (analyze_skincare_routine ingredient_interactions
          [⟨"P1", ["retinol"], "evening"⟩, ⟨"P2", ["vitamin c"], "morning"⟩]).graph.edges,
        ((e.1 = c.ingredient1 ∧ e.2.1 = c.ingredient2) ∨
         (e.1 = c.ingredient2 ∧ e.2.1 = c.ingredient1)) ∧ e.2.2.etype = "conflict") ∧
    List.Pairwise (fun e1 e2 =>
        ¬((e2.1 = e1.1 ∧ e2.2.1 = e1.2.1) ∨ (e2.1 = e1.2.1 ∧ e2.2.1 = e1.1)))
      (analyze_skincare_routine ingredient_interactions
        [⟨"P1", ["retinol"], "evening"⟩, ⟨"P2", ["vitamin c"], "morning"⟩]).graph.edges :=
  claim8_graph_structure ingredient_interactions
    [⟨"P1", ["retinol"], "evening"⟩, ⟨"P2", ["vitamin c"], "morning"⟩]
    (by decide) (by decide)

end Skincare
